import Mathlib

/-!
Shallow embedding of `eqation.py` from muazify/pyequationsolver.

The whole program is the single function `solve_for_x` (lines 6-134 of
`eqation.py`).  Its control flow is embedded here as a Lean function over
an `Oracle` that supplies the behaviour of the external collaborators
(sympy's `sympify` and `solveset`, and `lambdify`/scipy's `fsolve`):
the pipeline itself never inspects these beyond the attributes it tests
(`is_FiniteSet`, truthiness, `ConditionSet` instance test, `is_EmptySet`)
and the exception classes it catches, so those observable features are
what the embedding records.  Python floats are idealized as rationals.
-/

/-- Exception classes relevant to the handlers in `solve_for_x`:
the first `except` clause at line 85 catches
`(sympy.SympifyError, TypeError, SyntaxError)`, the numerical stage
separately catches `NameError` (line 124) and `TypeError` (line 126);
everything else is only caught by the two bare `except Exception`
clauses (lines 89 and 129).  All exceptions raised by the engines are
assumed to derive from Python's `Exception`. -/
inductive ExcClass where
  | sympifyErr
  | typeErr
  | synErr
  | nameErr
  | otherErr
deriving DecidableEq

/-- Whether an exception is caught by the handler at line 85,
`except (sympy.SympifyError, TypeError, SyntaxError)`. -/
def isParseClass : ExcClass → Bool
  | .sympifyErr => true
  | .typeErr => true
  | .synErr => true
  | _ => false

/-- Symbolic expressions.  `atom s` is the (abstract) result of
`sympy.sympify` on the character string `s`; `sub a b` is the sympy
difference `a - b` built at line 53 of `eqation.py`. -/
inductive SymExpr where
  | atom (s : List Char)
  | sub (lhs rhs : SymExpr)
deriving DecidableEq

/-- Members of a sympy `FiniteSet`, as observed by line 67 of
`eqation.py`: a value is a sympy `Integer`, a sympy `Float`
(idealized as a rational), a non-integer `Rational`, or some other
symbolic value that is neither. -/
inductive SymVal where
  | intVal (n : Int)
  | floatVal (q : ℚ)
  | ratVal (num den : Int)
  | symbolic (desc : List Char)
deriving DecidableEq

/-- A value as it appears in the printed `solutions_list` of line 67:
a Python `int`, a Python `float`, or the sympy object left unconverted. -/
inductive PyVal where
  | pyInt (n : Int)
  | pyFloat (q : ℚ)
  | pySym (v : SymVal)
deriving DecidableEq

/-- Line 67 of `eqation.py`:
`float(s) if s.is_Float else int(s) if s.is_Integer else s`. -/
def convertSol (v : SymVal) : PyVal :=
  match v with
  | .floatVal q => .pyFloat q
  | .intVal n => .pyInt n
  | v => .pySym v

/-- Result shapes of `sympy.solveset(expr, x, domain=S.Reals)` as
distinguished by lines 64-82: a non-empty `FiniteSet` (sympy's
`FiniteSet()` with no members collapses to `EmptySet`, so the finite
case carries at least one member by construction), the `EmptySet`, a
`ConditionSet`, or any other set (`Interval`, `ImageSet`, ...). -/
inductive SymSet where
  | finite (v : SymVal) (vs : List SymVal)
  | empty
  | cond (desc : List Char)
  | other (desc : List Char)
deriving DecidableEq

/-- Sympy's `is_FiniteSet` attribute: `True` on `FiniteSet` and on
`EmptySet` (the empty set is finite), falsy on `ConditionSet` and on
the non-finite shapes. -/
def SymSet.is_FiniteSet : SymSet → Bool
  | .finite _ _ => true
  | .empty => true
  | _ => false

/-- Python truthiness of the set object: `EmptySet` has length zero and
is falsy; a non-empty `FiniteSet`, a `ConditionSet` and the other
shapes are truthy. -/
def SymSet.truthy : SymSet → Bool
  | .empty => false
  | _ => true

/-- Sympy's `is_EmptySet` attribute, tested at line 77. -/
def SymSet.is_EmptySet : SymSet → Bool
  | .empty => true
  | _ => false

/-- The `isinstance(symbolic_solutions, sympy.sets.conditionset.ConditionSet)`
test at line 72. -/
def SymSet.isConditionSet : SymSet → Bool
  | .cond _ => true
  | _ => false

/-- The members iterated over by the list comprehension at line 67. -/
def SymSet.finiteVals : SymSet → List SymVal
  | .finite v vs => v :: vs
  | _ => []

/-- The message printed by the symbolic stage (lines 64-91): one of the
four classification reports, the parse-error report of lines 86-87, or
the unexpected-error report of line 90. -/
inductive SymReport where
  | finiteSols (vals : List PyVal)
  | conditional (s : SymSet)
  | noRealSolutions
  | nonFiniteSet (s : SymSet)
  | parseError (e : ExcClass)
  | unexpectedSymbolic (e : ExcClass)
deriving DecidableEq

/-- The message printed by the numerical stage (lines 98-130):
acceptance at line 116, the residual-mismatch caution at line 119,
the non-convergence report at lines 121-122, or one of the three
exception reports at lines 124-130. -/
inductive NumReport where
  | solutionFound (r : ℚ)
  | residualMismatch (r resid : ℚ)
  | didNotConverge (msg : List Char)
  | scipyMissing
  | evaluationError
  | unexpectedNumerical (e : ExcClass)
deriving DecidableEq

/-- Behaviour of the external engines, abstracted: `sympify` parses a
string (or raises), `solveset` solves `expr = 0` for `x` over the reals
(or raises), `lambdify` turns the expression into an evaluable function
(or raises, folding in call-time evaluation errors), and `fsolve` with
`full_output=True` returns the root array, the `ier` flag and the
diagnostic message. -/
structure Oracle where
  sympify : List Char → Except ExcClass SymExpr
  solveset : SymExpr → Except ExcClass SymSet
  lambdify : SymExpr → Except ExcClass (ℚ → ℚ)
  fsolve : (ℚ → ℚ) → ℚ → List ℚ × Int × List Char

/-- Python whitespace, as stripped by `str.strip()` at line 27. -/
def pyIsSpace (c : Char) : Bool :=
  c = ' ' || c = '\t' || c = '\n' || c = '\r' || c = '\x0b' || c = '\x0c'

/-- `equation_str.strip()` at line 27: drop leading and trailing
whitespace. -/
def pyStrip (s : List Char) : List Char :=
  ((s.dropWhile pyIsSpace).reverse.dropWhile pyIsSpace).reverse

/-- Python's `'=' in equation_str` at line 46. -/
def containsEq : List Char → Bool
  | [] => false
  | c :: rest => c = '=' || containsEq rest

/-- Python's `'==' in equation_str` at line 46. -/
def containsEqEq : List Char → Bool
  | [] => false
  | [_] => false
  | a :: b :: rest => (a = '=' && b = '=') || containsEqEq (b :: rest)

/-- Python's `equation_str.split('=', 1)` at line 48, given that `'='`
occurs: the characters before the first `'='` and those after it. -/
def splitFirstEq : List Char → List Char × List Char
  | [] => ([], [])
  | c :: rest =>
    if c = '=' then ([], rest)
    else
      let p := splitFirstEq rest
      (c :: p.1, p.2)

/-- Python's `equation_str.replace('==', '-')` at line 57:
left-to-right, non-overlapping replacement. -/
def replaceEqEq : List Char → List Char
  | [] => []
  | [c] => [c]
  | a :: b :: rest =>
    if a = '=' && b = '=' then '-' :: replaceEqEq rest
    else a :: replaceEqEq (b :: rest)

/-- Lines 46-58 of `eqation.py`: build `equation_expr` from the stripped
input text `t`.  If `t` contains `'='` but not `'=='`, split at the
first `'='`, sympify the two sides and subtract; otherwise replace
`'=='` by `'-'` and sympify the whole text. -/
def normalizeExpr (o : Oracle) (t : List Char) : Except ExcClass SymExpr :=
  if containsEq t && !containsEqEq t then
    match o.sympify (splitFirstEq t).1 with
    | .error e => .error e
    | .ok lhs =>
      match o.sympify (splitFirstEq t).2 with
      | .error e => .error e
      | .ok rhs => .ok (SymExpr.sub lhs rhs)
  else
    o.sympify (replaceEqEq t)

/-- Lines 64-82 of `eqation.py`: classify `symbolic_solutions`.
The branches are tested in source order: non-empty finite set first
(`is_FiniteSet and symbolic_solutions`), then `ConditionSet`, then
`is_EmptySet`, else the non-finite report. -/
def classifyReport (s : SymSet) : SymReport :=
  if s.is_FiniteSet && s.truthy then .finiteSols (s.finiteVals.map convertSol)
  else if s.isConditionSet then .conditional s
  else if s.is_EmptySet then .noRealSolutions
  else .nonFiniteSet s

/-- Lines 41-91 of `eqation.py`: the symbolic `try` block and its two
handlers.  Returns the values of `equation_expr` and
`symbolic_solutions` after the block, together with the printed report.
The handler at line 85 (parse classes) sets `equation_expr = None`
even when the exception came from the `solveset` call; the bare
`except Exception` at line 89 leaves `equation_expr` as it was:
`some` the parsed expression when `sympify` succeeded and `solveset`
raised, `none` when parsing itself raised. -/
def symbolicStage (o : Oracle) (t : List Char) :
    Option SymExpr × Option SymSet × SymReport :=
  match normalizeExpr o t with
  | .error e =>
    if isParseClass e then (none, none, .parseError e)
    else (none, none, .unexpectedSymbolic e)
  | .ok expr =>
    match o.solveset expr with
    | .error e =>
      if isParseClass e then (none, none, .parseError e)
      else (some expr, none, .unexpectedSymbolic e)
    | .ok s => (some expr, some s, classifyReport s)

/-- Absolute value on the idealized floats. -/
def ratAbs (a : ℚ) : ℚ :=
  if a < 0 then -a else a

/-- `np.isclose(v, 0)` at line 115 with numpy defaults
(`rtol=1e-5`, `atol=1e-8`): `|v - 0| <= atol + rtol * |0| = 1e-8`. -/
def npIsClose0 (a : ℚ) : Bool :=
  decide (ratAbs a ≤ 1 / 100000000)

/-- Lines 98-130 of `eqation.py`: the numerical `try` block.  On a
successful `lambdify`, run `fsolve` from the fixed initial guess `1.0`
(line 105); when `ier == 1`, examine `numerical_solution[0]` and accept
it only when `np.isclose(numeric_func(r), 0)`, otherwise print the
residual-mismatch caution; when `ier != 1`, print the solver's
diagnostic message.  Exceptions map to the three handlers at
lines 124-130 (`NameError`, `TypeError`, `Exception`); indexing an
empty root array would raise `IndexError`, caught by the bare handler. -/
def numericStage (o : Oracle) (e : SymExpr) : NumReport :=
  match o.lambdify e with
  | .error .nameErr => .scipyMissing
  | .error .typeErr => .evaluationError
  | .error exc => .unexpectedNumerical exc
  | .ok f =>
    match o.fsolve f 1 with
    | (sols, ier, msg) =>
      if ier = 1 then
        match sols with
        | [] => .unexpectedNumerical .otherErr
        | r :: _ =>
          if npIsClose0 (f r) then .solutionFound r
          else .residualMismatch r (f r)
      else .didNotConverge msg

/-- The second conjunct of the guard at line 96:
`not symbolic_solutions or not symbolic_solutions.is_FiniteSet`,
where `symbolic_solutions` is `None` when `solveset` never returned. -/
def solsCondition : Option SymSet → Bool
  | none => true
  | some s => !s.truthy || !s.is_FiniteSet

/-- The observable outcome of one run of `solve_for_x`:
whether the early `return` at line 31 fired, the final values of
`equation_expr` and `symbolic_solutions`, the symbolic-stage report,
whether the numerical stage was entered, and its report when it was. -/
structure RunResult where
  halted : Bool
  expr : Option SymExpr
  sols : Option SymSet
  symReport : Option SymReport
  numRan : Bool
  numReport : Option NumReport
deriving DecidableEq

/-- Lines 93-131 of `eqation.py`: given the symbolic stage's outcome,
run the numerical stage exactly when
`equation_expr is not None and (not symbolic_solutions or not
symbolic_solutions.is_FiniteSet)`. -/
def assembleRun (o : Oracle) (st : Option SymExpr × Option SymSet × SymReport) :
    RunResult :=
  match st with
  | (some e, sols?, rep) =>
    if solsCondition sols? then
      ⟨false, some e, sols?, some rep, true, some (numericStage o e)⟩
    else
      ⟨false, some e, sols?, some rep, false, none⟩
  | (none, sols?, rep) => ⟨false, none, sols?, some rep, false, none⟩

/-- The whole pipeline of `solve_for_x` (lines 27-131), for a given
input line: strip it; if nothing remains, print the empty-input message
and return before any solving; otherwise run the symbolic stage and
then, when the line-96 guard holds, the numerical stage. -/
def solve_for_x (o : Oracle) (input : List Char) : RunResult :=
  if (pyStrip input).isEmpty then ⟨true, none, none, none, false, none⟩
  else assembleRun o (symbolicStage o (pyStrip input))

/-- An engine behaviour on which everything succeeds: parsing returns
the atom of the given text, solving returns the one-element finite set
containing the integer 3, and the numerical routines find a root at 3. -/
def okOracle : Oracle :=
  ⟨fun s => .ok (.atom s), fun _ => .ok (.finite (.intVal 3) []),
   fun _ => .ok (fun q => q - 3), fun _ _ => ([3], 1, [])⟩

/-- An engine behaviour whose finite solution set mixes an `Integer`, a
`Float`, a non-integer `Rational` and an irreducible symbolic value. -/
def valsOracle : Oracle :=
  ⟨fun s => .ok (.atom s),
   fun _ => .ok (.finite (.intVal 2)
     [.floatVal (5 / 2), .ratVal 1 2, .symbolic ['r']]),
   fun _ => .ok (fun q => q - 2), fun _ _ => ([2], 1, [])⟩

/-- An engine behaviour on which parsing raises `SympifyError`. -/
def parseFailOracle : Oracle :=
  ⟨fun _ => .error .sympifyErr, fun _ => .ok .empty,
   fun _ => .ok (fun q => q), fun _ _ => ([0], 1, [])⟩

/-- An engine behaviour on which parsing succeeds but `solveset` raises
`TypeError`. -/
def typeSolveOracle : Oracle :=
  ⟨fun s => .ok (.atom s), fun _ => .error .typeErr,
   fun _ => .ok (fun q => q), fun _ _ => ([0], 1, [])⟩

/-- An engine behaviour on which parsing succeeds, `solveset` raises an
exception outside the three parse classes, and the numerical routines
report convergence to the first element of a two-element root array. -/
def engineFailOracle : Oracle :=
  ⟨fun s => .ok (.atom s), fun _ => .error .otherErr,
   fun _ => .ok (fun q => q - 2), fun _ _ => ([2, 3], 1, [])⟩

/-- The characters of the spec example input `1 + x = 4`. -/
def inp1 : List Char := ['1', ' ', '+', ' ', 'x', ' ', '=', ' ', '4']

/-- The characters of the spec example input `x^2`. -/
def inpPow : List Char := ['x', '^', '2']

/-! Helper lemmas about the character-level utilities. -/

lemma space_not_eq {a : Char} (h : pyIsSpace a = true) : decide (a = '=') = false := by
  rcases eq_or_ne a '=' with rfl | hne
  · simp [pyIsSpace] at h
  · simp [hne]

lemma containsEq_append (u v : List Char) :
    containsEq (u ++ v) = (containsEq u || containsEq v) := by
  induction u with
  | nil => simp [containsEq]
  | cons a t ih => simp [containsEq, ih, Bool.or_assoc]

lemma containsEq_reverse (l : List Char) : containsEq l.reverse = containsEq l := by
  induction l with
  | nil => rfl
  | cons a t ih =>
    simp [List.reverse_cons, containsEq_append, containsEq, ih, Bool.or_comm]

lemma containsEq_dropWhile (l : List Char) (h : containsEq l = true) :
    containsEq (l.dropWhile pyIsSpace) = true := by
  induction l with
  | nil => simpa [containsEq] using h
  | cons a t ih =>
    rw [List.dropWhile_cons]
    cases hs : pyIsSpace a with
    | false => simpa [containsEq] using h
    | true =>
      simp only [if_pos rfl, ite_true]
      exact ih (by simpa [containsEq, space_not_eq hs] using h)

lemma containsEq_pyStrip (s : List Char) (h : containsEq s = true) :
    containsEq (pyStrip s) = true := by
  unfold pyStrip
  rw [containsEq_reverse]
  exact containsEq_dropWhile _ (by rw [containsEq_reverse]; exact containsEq_dropWhile _ h)

lemma containsEqEq_cons (c : Char) (t : List Char) (h : containsEqEq t = true) :
    containsEqEq (c :: t) = true := by
  cases t with
  | nil => simpa [containsEqEq] using h
  | cons b rest => simp [containsEqEq, h]

lemma containsEqEq_append_left (u v : List Char) (h : containsEqEq u = true) :
    containsEqEq (u ++ v) = true := by
  induction u with
  | nil => simpa [containsEqEq] using h
  | cons a t ih =>
    cases t with
    | nil => simpa [containsEqEq] using h
    | cons b rest =>
      show containsEqEq (a :: b :: (rest ++ v)) = true
      simp only [containsEqEq, Bool.or_eq_true] at h ⊢
      rcases h with h1 | h2
      · exact Or.inl h1
      · exact Or.inr (ih h2)

lemma containsEqEq_append_right (u v : List Char) (h : containsEqEq v = true) :
    containsEqEq (u ++ v) = true := by
  induction u with
  | nil => simpa using h
  | cons a t ih =>
    show containsEqEq (a :: (t ++ v)) = true
    exact containsEqEq_cons a _ ih

lemma pyStrip_infix (s : List Char) : ∃ u w, s = u ++ (pyStrip s ++ w) := by
  have h2 := List.takeWhile_append_dropWhile pyIsSpace (s.dropWhile pyIsSpace).reverse
  have h3 := congrArg List.reverse h2
  rw [List.reverse_append, List.reverse_reverse] at h3
  refine ⟨s.takeWhile pyIsSpace,
    ((s.dropWhile pyIsSpace).reverse.takeWhile pyIsSpace).reverse, ?_⟩
  have h4 : pyStrip s ++ ((s.dropWhile pyIsSpace).reverse.takeWhile pyIsSpace).reverse
      = s.dropWhile pyIsSpace := h3
  rw [h4]
  exact (List.takeWhile_append_dropWhile pyIsSpace s).symm

lemma containsEqEq_pyStrip (s : List Char) (h : containsEqEq s = false) :
    containsEqEq (pyStrip s) = false := by
  cases hc : containsEqEq (pyStrip s) with
  | false => rfl
  | true =>
    obtain ⟨u, w, hs⟩ := pyStrip_infix s
    have : containsEqEq s = true := by
      rw [hs]
      exact containsEqEq_append_right _ _ (containsEqEq_append_left _ _ hc)
    rw [this] at h
    cases h

lemma dropWhile_all_space (l : List Char) (h : l.all pyIsSpace = true) :
    l.dropWhile pyIsSpace = [] := by
  induction l with
  | nil => rfl
  | cons a t ih =>
    rw [List.all_cons, Bool.and_eq_true] at h
    rw [List.dropWhile_cons, if_pos h.1]
    exact ih h.2

lemma pyStrip_all_space (s : List Char) (h : s.all pyIsSpace = true) :
    pyStrip s = [] := by
  unfold pyStrip
  rw [dropWhile_all_space s h]
  rfl

/-! Helper lemmas about the assembled pipeline. -/

lemma solve_for_x_empty (o : Oracle) (s : List Char) (h : (pyStrip s).isEmpty = true) :
    solve_for_x o s = ⟨true, none, none, none, false, none⟩ := by
  simp [solve_for_x, h]

lemma solve_for_x_nonempty (o : Oracle) (s : List Char) (h : (pyStrip s).isEmpty = false) :
    solve_for_x o s = assembleRun o (symbolicStage o (pyStrip s)) := by
  simp [solve_for_x, h]

lemma assembleRun_halted (o : Oracle) (st : Option SymExpr × Option SymSet × SymReport) :
    (assembleRun o st).halted = false := by
  rcases st with ⟨e?, s?, rep⟩
  cases e? with
  | none => rfl
  | some e => cases hsc : solsCondition s? <;> simp [assembleRun, hsc]

lemma assembleRun_expr (o : Oracle) (st : Option SymExpr × Option SymSet × SymReport) :
    (assembleRun o st).expr = st.1 := by
  rcases st with ⟨e?, s?, rep⟩
  cases e? with
  | none => rfl
  | some e => cases hsc : solsCondition s? <;> simp [assembleRun, hsc]

lemma assembleRun_sols (o : Oracle) (st : Option SymExpr × Option SymSet × SymReport) :
    (assembleRun o st).sols = st.2.1 := by
  rcases st with ⟨e?, s?, rep⟩
  cases e? with
  | none => rfl
  | some e => cases hsc : solsCondition s? <;> simp [assembleRun, hsc]

lemma assembleRun_symReport (o : Oracle) (st : Option SymExpr × Option SymSet × SymReport) :
    (assembleRun o st).symReport = some st.2.2 := by
  rcases st with ⟨e?, s?, rep⟩
  cases e? with
  | none => rfl
  | some e => cases hsc : solsCondition s? <;> simp [assembleRun, hsc]

lemma assembleRun_numRan (o : Oracle) (st : Option SymExpr × Option SymSet × SymReport) :
    (assembleRun o st).numRan = (st.1.isSome && solsCondition st.2.1) := by
  rcases st with ⟨e?, s?, rep⟩
  cases e? with
  | none => rfl
  | some e => cases hsc : solsCondition s? <;> simp [assembleRun, hsc]

lemma assembleRun_numReport (o : Oracle) (st : Option SymExpr × Option SymSet × SymReport) :
    (assembleRun o st).numReport =
      (match st.1 with
       | none => none
       | some e => if solsCondition st.2.1 then some (numericStage o e) else none) := by
  rcases st with ⟨e?, s?, rep⟩
  cases e? with
  | none => rfl
  | some e => cases hsc : solsCondition s? <;> simp [assembleRun, hsc]

lemma symbolicStage_ok (o : Oracle) (t : List Char) (e : SymExpr) (s' : SymSet)
    (h1 : normalizeExpr o t = Except.ok e) (h2 : o.solveset e = Except.ok s') :
    symbolicStage o t = (some e, some s', classifyReport s') := by
  simp [symbolicStage, h1, h2]

lemma symbolicStage_parse_error (o : Oracle) (t : List Char) (exc : ExcClass)
    (h1 : normalizeExpr o t = Except.error exc) (hp : isParseClass exc = true) :
    symbolicStage o t = (none, none, SymReport.parseError exc) := by
  simp [symbolicStage, h1, hp]

lemma symbolicStage_solve_error (o : Oracle) (t : List Char) (e : SymExpr) (exc : ExcClass)
    (h1 : normalizeExpr o t = Except.ok e) (h2 : o.solveset e = Except.error exc) :
    symbolicStage o t =
      (if isParseClass exc then (none, none, SymReport.parseError exc)
       else (some e, none, SymReport.unexpectedSymbolic exc)) := by
  cases hp : isParseClass exc <;> simp [symbolicStage, h1, h2, hp]

lemma solsCondition_eq_true_iff (x : Option SymSet) :
    solsCondition x = true ↔ ∀ v vs, x ≠ some (SymSet.finite v vs) := by
  cases x with
  | none => simp [solsCondition]
  | some s =>
    cases s with
    | finite v vs =>
      have hx : solsCondition (some (SymSet.finite v vs)) = false := rfl
      rw [hx]
      simp only [Bool.false_eq_true, false_iff, not_forall]
      exact ⟨v, vs, by simp⟩
    | empty => simp [solsCondition, SymSet.truthy]
    | cond d =>
      have hx : solsCondition (some (SymSet.cond d)) = true := rfl
      rw [hx]
      simp
    | other d =>
      have hx : solsCondition (some (SymSet.other d)) = true := rfl
      rw [hx]
      simp

/-! Claim theorems. -/

/-- C1: the numerical fallback stage is entered if and only if the
expression was successfully parsed (`equation_expr is not None`) and
the symbolic outcome is not a non-empty finite set; the latter covers
the empty-set, conditional and non-finite shapes as well as a
symbolic-stage error, where `symbolic_solutions` is still `None`.  In
particular, for every input whose symbolic outcome is a non-empty
finite set, the numerical stage is not entered. -/
theorem numerical_fallback_trigger_policy (o : Oracle) (s : List Char) :
    (solve_for_x o s).numRan = true ↔
      ((solve_for_x o s).expr.isSome = true ∧
        ∀ v vs, (solve_for_x o s).sols ≠ some (SymSet.finite v vs)) := by
  cases hE : (pyStrip s).isEmpty with
  | true => simp [solve_for_x_empty o s hE]
  | false =>
    rw [solve_for_x_nonempty o s hE, assembleRun_numRan, assembleRun_expr,
      assembleRun_sols, Bool.and_eq_true]
    exact and_congr_right fun _ => solsCondition_eq_true_iff _

/-- C2 counterexample: on input `1 + x = 4` with an engine returning
the finite set containing 3, the pipeline records the non-empty finite
outcome and does not run the numerical fallback, contradicting the
claim that the fallback is always run as a demonstration stage. -/
theorem demo_fallback_not_run_cex :
    (solve_for_x okOracle inp1).sols = some (SymSet.finite (SymVal.intVal 3) []) ∧
    (solve_for_x okOracle inp1).numRan = false ∧
    (solve_for_x okOracle inp1).numReport = none :=
  ⟨rfl, rfl, rfl⟩

/-- C2 (amended): for every input whose symbolic resolution succeeds
with a non-empty finite solution set, the pipeline skips the numerical
fallback stage after reporting the exact solutions; the comment at
line 70 announces a demonstration run, but the guard at line 96
prevents it. -/
theorem finite_outcome_skips_fallback (o : Oracle) (s : List Char)
    (v : SymVal) (vs : List SymVal)
    (h : (solve_for_x o s).sols = some (SymSet.finite v vs)) :
    (solve_for_x o s).numRan = false ∧ (solve_for_x o s).numReport = none := by
  cases hE : (pyStrip s).isEmpty with
  | true => rw [solve_for_x_empty o s hE] at h; cases h
  | false =>
    rw [solve_for_x_nonempty o s hE] at h ⊢
    rw [assembleRun_sols] at h
    have hsc : solsCondition (symbolicStage o (pyStrip s)).2.1 = false := by
      rw [h]; rfl
    constructor
    · rw [assembleRun_numRan, hsc, Bool.and_false]
    · rw [assembleRun_numReport]
      cases hx : (symbolicStage o (pyStrip s)).1 with
      | none => rfl
      | some e => simp [hsc]

/-- C2 (amended) witness at a concrete engine and input. -/
theorem finite_outcome_skips_fallback_witness :
    (solve_for_x okOracle inp1).numRan = false ∧
    (solve_for_x okOracle inp1).numReport = none :=
  finite_outcome_skips_fallback okOracle inp1 (SymVal.intVal 3) [] rfl

/-- C3: when the input text contains `=` but not `==`, normalization
splits the (stripped) text at the first `=`, parses the two sides
independently, and the normalized expression is exactly the symbolic
difference `left - right`. -/
theorem normalize_splits_at_first_eq (o : Oracle) (s : List Char) (lhs rhs : SymExpr)
    (hin : containsEq s = true) (hnn : containsEqEq s = false)
    (hl : o.sympify (splitFirstEq (pyStrip s)).1 = Except.ok lhs)
    (hr : o.sympify (splitFirstEq (pyStrip s)).2 = Except.ok rhs) :
    normalizeExpr o (pyStrip s) = Except.ok (SymExpr.sub lhs rhs) := by
  have h1 := containsEq_pyStrip s hin
  have h2 := containsEqEq_pyStrip s hnn
  simp [normalizeExpr, h1, h2, hl, hr]

/-- C3 witness at a concrete engine and the spec example `1 + x = 4`. -/
theorem normalize_splits_at_first_eq_witness :
    normalizeExpr okOracle (pyStrip inp1) =
      Except.ok (SymExpr.sub (SymExpr.atom ['1', ' ', '+', ' ', 'x', ' '])
        (SymExpr.atom [' ', '4'])) :=
  normalize_splits_at_first_eq okOracle inp1
    (SymExpr.atom ['1', ' ', '+', ' ', 'x', ' ']) (SymExpr.atom [' ', '4'])
    (by decide) (by decide) rfl rfl

/-- C4: when `fsolve` signals convergence (`ier == 1`), the first root
`r` is accepted and reported as the numerical solution exactly when
`np.isclose(f(r), 0)` holds, i.e. when the residual is within the
absolute tolerance 1e-8 of zero; otherwise the value together with its
residual `f(r)` is reported as a discrepancy rather than silently
accepted. -/
theorem converged_root_acceptance (o : Oracle) (e : SymExpr) (f : ℚ → ℚ)
    (r : ℚ) (rest : List ℚ) (msg : List Char)
    (hl : o.lambdify e = Except.ok f)
    (hf : o.fsolve f 1 = (r :: rest, 1, msg)) :
    numericStage o e =
      (if npIsClose0 (f r) then NumReport.solutionFound r
       else NumReport.residualMismatch r (f r)) := by
  simp only [numericStage]
  rw [hl]
  simp [hf]

/-- C4 witness: a converged first root 2 with zero residual is
accepted. -/
theorem converged_root_acceptance_witness :
    numericStage engineFailOracle (SymExpr.atom ['x']) = NumReport.solutionFound 2 := by
  have h := converged_root_acceptance engineFailOracle (SymExpr.atom ['x'])
    (fun q => q - 2) 2 [3] [] rfl rfl
  simpa [npIsClose0, ratAbs] using h

/-- C5 counterexample: with an engine whose `solveset` raises
`TypeError` after input `x` parsed successfully, the handler at line 85
treats the solving exception as a parse failure: it is reported as a
parse error, `equation_expr` is reset to `None`, and the numerical
fallback is skipped — contradicting the claim that any non-parse-stage
exception during solving still leads to the fallback. -/
theorem solving_type_error_aborts_cex :
    normalizeExpr typeSolveOracle (pyStrip ['x']) = Except.ok (SymExpr.atom ['x']) ∧
    typeSolveOracle.solveset (SymExpr.atom ['x']) = Except.error ExcClass.typeErr ∧
    (solve_for_x typeSolveOracle ['x']).symReport
      = some (SymReport.parseError ExcClass.typeErr) ∧
    (solve_for_x typeSolveOracle ['x']).numRan = false ∧
    (solve_for_x typeSolveOracle ['x']).numReport = none :=
  ⟨rfl, rfl, rfl, rfl, rfl⟩

/-- C5 (amended): an exception raised by the engine during solving that
is outside the three classes of the line-85 handler (`SympifyError`,
`TypeError`, `SyntaxError`) does not abort the pipeline: it is
reported as an unexpected symbolic error and the numerical fallback
still runs on the already-normalized expression.  Exceptions of those
three classes raised during solving are instead treated as parse
failures and skip the fallback. -/
theorem nonparse_solving_error_still_falls_back (o : Oracle) (s : List Char)
    (e : SymExpr) (exc : ExcClass)
    (hE : (pyStrip s).isEmpty = false)
    (hok : normalizeExpr o (pyStrip s) = Except.ok e)
    (herr : o.solveset e = Except.error exc)
    (hp : isParseClass exc = false) :
    (solve_for_x o s).symReport = some (SymReport.unexpectedSymbolic exc) ∧
    (solve_for_x o s).expr = some e ∧
    (solve_for_x o s).numRan = true ∧
    (solve_for_x o s).numReport = some (numericStage o e) := by
  rw [solve_for_x_nonempty o s hE, symbolicStage_solve_error o _ e exc hok herr, hp]
  simp [assembleRun, solsCondition]

/-- C5 (amended) witness at a concrete engine and input. -/
theorem nonparse_solving_error_still_falls_back_witness :
    (solve_for_x engineFailOracle inp1).symReport
      = some (SymReport.unexpectedSymbolic ExcClass.otherErr) ∧
    (solve_for_x engineFailOracle inp1).expr
      = some (SymExpr.sub (SymExpr.atom ['1', ' ', '+', ' ', 'x', ' '])
          (SymExpr.atom [' ', '4'])) ∧
    (solve_for_x engineFailOracle inp1).numRan = true ∧
    (solve_for_x engineFailOracle inp1).numReport
      = some (numericStage engineFailOracle
          (SymExpr.sub (SymExpr.atom ['1', ' ', '+', ' ', 'x', ' '])
            (SymExpr.atom [' ', '4']))) :=
  nonparse_solving_error_still_falls_back engineFailOracle inp1
    (SymExpr.sub (SymExpr.atom ['1', ' ', '+', ' ', 'x', ' '])
      (SymExpr.atom [' ', '4']))
    ExcClass.otherErr rfl rfl rfl rfl

/-- C6: when parsing fails with one of the parse-failure classes, the
parse error is reported, `equation_expr` stays `None`, and the
numerical fallback stage is skipped because no normalized expression
exists for the run. -/
theorem parse_error_skips_numeric_stage (o : Oracle) (s : List Char) (exc : ExcClass)
    (hE : (pyStrip s).isEmpty = false)
    (herr : normalizeExpr o (pyStrip s) = Except.error exc)
    (hp : isParseClass exc = true) :
    (solve_for_x o s).symReport = some (SymReport.parseError exc) ∧
    (solve_for_x o s).expr = none ∧
    (solve_for_x o s).numRan = false ∧
    (solve_for_x o s).numReport = none := by
  rw [solve_for_x_nonempty o s hE, symbolicStage_parse_error o _ exc herr hp]
  simp [assembleRun]

/-- C6 witness at the spec example `x^2` with a failing parse. -/
theorem parse_error_skips_numeric_stage_witness :
    (solve_for_x parseFailOracle inpPow).symReport
      = some (SymReport.parseError ExcClass.sympifyErr) ∧
    (solve_for_x parseFailOracle inpPow).expr = none ∧
    (solve_for_x parseFailOracle inpPow).numRan = false ∧
    (solve_for_x parseFailOracle inpPow).numReport = none :=
  parse_error_skips_numeric_stage parseFailOracle inpPow ExcClass.sympifyErr rfl rfl rfl

/-- C7: empty or whitespace-only input halts the pipeline before
normalization — the early return at line 31, the spec's
`EmptyInputError` — with no symbolic and no numerical solving. -/
theorem empty_input_halts_pipeline (o : Oracle) (s : List Char)
    (h : s.all pyIsSpace = true) :
    solve_for_x o s = ⟨true, none, none, none, false, none⟩ := by
  apply solve_for_x_empty
  rw [pyStrip_all_space s h]
  rfl

/-- C7 witness on a whitespace-only input. -/
theorem empty_input_halts_pipeline_witness :
    solve_for_x okOracle [' ', '\t'] = ⟨true, none, none, none, false, none⟩ :=
  empty_input_halts_pipeline okOracle [' ', '\t'] (by decide)

/-- C8: a successful symbolic result that is a non-empty finite
collection is classified and reported as the finite outcome, each
member converted by line 67: sympy `Integer`s become exact Python
ints, sympy `Float`s become Python floats, and values that are neither
— non-integer rationals or irreducible symbolic values — are left as
they are. -/
theorem finite_classification_and_conversion (o : Oracle) (s : List Char)
    (e : SymExpr) (v : SymVal) (vs : List SymVal)
    (hE : (pyStrip s).isEmpty = false)
    (hok : normalizeExpr o (pyStrip s) = Except.ok e)
    (hsol : o.solveset e = Except.ok (SymSet.finite v vs)) :
    (solve_for_x o s).symReport
        = some (SymReport.finiteSols ((v :: vs).map convertSol)) ∧
    (∀ n, convertSol (SymVal.intVal n) = PyVal.pyInt n) ∧
    (∀ q, convertSol (SymVal.floatVal q) = PyVal.pyFloat q) ∧
    (∀ p q, convertSol (SymVal.ratVal p q) = PyVal.pySym (SymVal.ratVal p q)) ∧
    (∀ d, convertSol (SymVal.symbolic d) = PyVal.pySym (SymVal.symbolic d)) := by
  refine ⟨?_, fun n => rfl, fun q => rfl, fun p q => rfl, fun d => rfl⟩
  rw [solve_for_x_nonempty o s hE, symbolicStage_ok o _ e _ hok hsol,
    assembleRun_symReport]
  rfl

/-- C8 witness on a finite set mixing all four member kinds. -/
theorem finite_classification_and_conversion_witness :
    (solve_for_x valsOracle inp1).symReport
        = some (SymReport.finiteSols (((SymVal.intVal 2) ::
            [SymVal.floatVal (5 / 2), SymVal.ratVal 1 2,
              SymVal.symbolic ['r']]).map convertSol)) ∧
    (∀ n, convertSol (SymVal.intVal n) = PyVal.pyInt n) ∧
    (∀ q, convertSol (SymVal.floatVal q) = PyVal.pyFloat q) ∧
    (∀ p q, convertSol (SymVal.ratVal p q) = PyVal.pySym (SymVal.ratVal p q)) ∧
    (∀ d, convertSol (SymVal.symbolic d) = PyVal.pySym (SymVal.symbolic d)) :=
  finite_classification_and_conversion valsOracle inp1
    (SymExpr.sub (SymExpr.atom ['1', ' ', '+', ' ', 'x', ' '])
      (SymExpr.atom [' ', '4']))
    (SymVal.intVal 2)
    [SymVal.floatVal (5 / 2), SymVal.ratVal 1 2, SymVal.symbolic ['r']]
    rfl rfl rfl

/-- C9: every run ends in reports, never in an escaping exception:
either the empty-input early return fired and nothing else ran, or the
symbolic stage produced a report (its two handlers cover every modeled
exception class) and the numerical stage produced a report exactly when
it ran (its three handlers likewise); `solve_for_x` is total over all
engine behaviours. -/
theorem all_failures_reported (o : Oracle) (s : List Char) :
    ((solve_for_x o s).halted = true ∧ (solve_for_x o s).symReport = none
      ∧ (solve_for_x o s).numReport = none)
    ∨ ((solve_for_x o s).halted = false ∧ (solve_for_x o s).symReport.isSome = true
      ∧ (solve_for_x o s).numRan = (solve_for_x o s).numReport.isSome) := by
  cases hE : (pyStrip s).isEmpty with
  | true =>
    left
    rw [solve_for_x_empty o s hE]
    exact ⟨rfl, rfl, rfl⟩
  | false =>
    right
    rw [solve_for_x_nonempty o s hE]
    refine ⟨assembleRun_halted o _, ?_, ?_⟩
    · rw [assembleRun_symReport]; rfl
    · rw [assembleRun_numRan, assembleRun_numReport]
      cases hx : (symbolicStage o (pyStrip s)).1 with
      | none => rfl
      | some e =>
        cases hsc : solsCondition (symbolicStage o (pyStrip s)).2.1 with
        | true => simp
        | false => simp

/-- C10: when the root-finder reports convergence, only the first
element of its result array is examined: the numerical report is either
acceptance of that first element or the residual-mismatch caution for
it, independent of any further elements of the array, so at most one
value is ever reported per run. -/
theorem first_root_only_examined (o : Oracle) (e : SymExpr) (f : ℚ → ℚ)
    (r : ℚ) (rest : List ℚ) (msg : List Char)
    (hl : o.lambdify e = Except.ok f)
    (hf : o.fsolve f 1 = (r :: rest, 1, msg)) :
    numericStage o e = NumReport.solutionFound r ∨
      numericStage o e = NumReport.residualMismatch r (f r) := by
  simp only [numericStage]
  rw [hl]
  cases hc : npIsClose0 (f r) with
  | true => left; simp [hf, hc]
  | false => right; simp [hf, hc]

/-- C10 witness: with a two-element root array only the first element
is reported. -/
theorem first_root_only_examined_witness :
    numericStage engineFailOracle (SymExpr.atom ['x']) = NumReport.solutionFound 2 ∨
    numericStage engineFailOracle (SymExpr.atom ['x'])
      = NumReport.residualMismatch 2 ((fun q : ℚ => q - 2) 2) :=
  first_root_only_examined engineFailOracle (SymExpr.atom ['x'])
    (fun q => q - 2) 2 [3] [] rfl rfl
